import Mathlib

/-!
Verification development for the nengo_mpi distributed simulation core.

The C++ sources embedded here are:
  src/mpi_sim/probe.hpp          (Probe: gather, get_data)
  src/mpi_sim/mpi_simulator.cpp  (MpiInterface: add_signal, add_op, add_probe,
                                  finalize, run_n_steps, gather_probe_data,
                                  finish_simulation)
  src/mpi_sim/simulator.cpp      (MpiSimulator: write_to_file, read_from_file,
                                  to_string)
  src/operator.hpp               (operator class declarations)

Machine integers that stay small and non-negative (keys, counts, step indices)
are modelled as Nat; the float payloads (dt, probe period sent on the wire,
matrix entries) are carried opaquely, since no claim computes with them.
Pointer-based state (Probe's list<T*> of copied samples) is modelled with an
explicit allocation heap so that copy-vs-reference distinctions are visible.
-/

/-- C++ `key_type` (an integer key identifying signals and probes). -/
abbrev key_type := Nat

/-! ## Heap model for pointer-based probe samples

`Probe<T>::gather` executes `T* new_signal = new T(); *new_signal = *signal;
data.push_back(new_signal)`: it allocates a fresh cell, copies the target
signal's current value into it, and stores the fresh pointer.  The heap is a
bump allocator: addresses below `next` are allocated, `alloc` hands out
`next` and advances it. -/
structure Heap (T : Type) where
  next : Nat
  mem : Nat → T

/-- Overwrite the cell at address `a` (models `*p = v`). -/
def Heap.write {T : Type} (h : Heap T) (a : Nat) (v : T) : Heap T :=
  { h with mem := fun x => if x = a then v else h.mem x }

/-- Allocate a fresh cell holding `v` (models `new T()` followed by `*new_signal = *signal`);
returns the new heap and the fresh address. -/
def Heap.alloc {T : Type} (h : Heap T) (v : T) : Heap T × Nat :=
  ({ next := h.next + 1, mem := fun x => if x = h.next then v else h.mem x }, h.next)

/-- Embedding of `Probe<T>` from src/mpi_sim/probe.hpp: `list<T*> data` is the
list of sample-cell addresses, `T* signal` the address of the probed signal,
`int period` the sampling period. -/
structure Probe (T : Type) where
  data : List Nat
  signal : Nat
  period : Nat

/-- Embedding of `Probe<T>::gather(int n_steps)` (probe.hpp lines 27-34):
`if(n_steps % period == 0){ T* new_signal = new T(); *new_signal = *signal;
data.push_back(new_signal); }`.  C++ `%` by zero is undefined behaviour, so
the modulo is guarded: `none` is the error branch reached when `period = 0`. -/
def Probe.gather {T : Type} (p : Probe T) (h : Heap T) (n_steps : Nat) :
    Option (Probe T × Heap T) :=
  if p.period = 0 then none
  else if n_steps % p.period = 0 then
    let r := h.alloc (h.mem p.signal)
    some ({ p with data := p.data ++ [r.2] }, r.1)
  else some (p, h)

/-- Embedding of `Probe<T>::get_data()` (probe.hpp lines 36-39): returns the
accumulated `data` list; the probe is not modified, which the state-passing
style makes explicit by returning the unchanged probe. -/
def Probe.get_data {T : Type} (p : Probe T) : List Nat × Probe T :=
  (p.data, p)

/-! ## Control-channel messages of the coordinator (mpi_simulator.cpp)

Every configuration routine of `MpiInterface` is a straight-line sequence of
`comm.send(component, tag, payload)` calls on tag 1; the embedding records
the emitted message sequence.  The float `period` and the matrix entries are
carried opaquely (`Int` stand-ins), since no claim computes with them. -/

/-- The type flags `add_signal_flag`, `add_op_flag`, `add_probe_flag`,
`stop_flag` used on the control channel. -/
inductive CtrlFlag where
  | addSignal
  | addOp
  | addProbe
  | stop
deriving DecidableEq, Repr

/-- One payload value sent by a single `comm.send` call. -/
inductive CtrlVal where
  | flag (f : CtrlFlag)
  | key (k : key_type)
  | str (s : String)
  | mat (d : List Int)
  | fnum (x : Int)
deriving DecidableEq, Repr

/-- One point-to-point message: destination rank, MPI tag, payload. -/
structure CtrlMsg where
  dest : Nat
  tag : Nat
  val : CtrlVal
deriving DecidableEq, Repr

/-- Embedding of `MpiInterface::add_signal` (mpi_simulator.cpp lines 50-58):
sends, on tag 1 to `component`, the flag `add_signal_flag`, then `key`, then
`label`, then the matrix `*data`. -/
def MpiInterface.add_signal (component : Nat) (key : key_type) (label : String)
    (data : List Int) : List CtrlMsg :=
  [⟨component, 1, .flag .addSignal⟩, ⟨component, 1, .key key⟩,
   ⟨component, 1, .str label⟩, ⟨component, 1, .mat data⟩]

/-- Embedding of `MpiInterface::add_op` (mpi_simulator.cpp lines 60-66):
sends, on tag 1 to `component`, the flag `add_op_flag` then `op_string`. -/
def MpiInterface.add_op (component : Nat) (op_string : String) : List CtrlMsg :=
  [⟨component, 1, .flag .addOp⟩, ⟨component, 1, .str op_string⟩]

/-- Embedding of `MpiInterface::add_probe` (mpi_simulator.cpp lines 68-76):
sends, on tag 1 to `component`, the flag `add_probe_flag`, then `probe_key`,
then `signal_key`, then the float `period`. -/
def MpiInterface.add_probe (component : Nat) (probe_key : key_type)
    (signal_key : key_type) (period : Int) : List CtrlMsg :=
  [⟨component, 1, .flag .addProbe⟩, ⟨component, 1, .key probe_key⟩,
   ⟨component, 1, .key signal_key⟩, ⟨component, 1, .fnum period⟩]

/-- Coordinator-session state relevant to teardown: the worker count
(`num_remote_chunks`) and whether the merged communication group still
exists.  `MpiInterface::finalize` also rebinds the master chunk's send/recv
operators to the communicator; that touches only the master chunk and is
irrelevant to the message trace and the group lifetime. -/
structure MpiInterfaceState where
  num_remote_chunks : Nat
  group_exists : Bool
deriving DecidableEq, Repr

/-- Embedding of `MpiInterface::finalize` (mpi_simulator.cpp lines 78-98): for
`i = 0 .. num_remote_chunks-1` it sends `stop_flag` on tag 1 to rank `i+1`.
It does not call `MPI_Finalize`, so the state (in particular `group_exists`)
is returned unchanged. -/
def MpiInterface.finalize (s : MpiInterfaceState) :
    MpiInterfaceState × List CtrlMsg :=
  (s, (List.range s.num_remote_chunks).map (fun i => ⟨i + 1, 1, .flag .stop⟩))

/-- Embedding of `MpiInterface::finish_simulation` (mpi_simulator.cpp lines
146-148): calls `MPI_Finalize`, tearing down the communication group. -/
def MpiInterface.finish_simulation (s : MpiInterfaceState) : MpiInterfaceState :=
  { s with group_exists := false }

/-! ## Probe gathering on the coordinator (mpi_simulator.cpp lines 113-144)

`gather_probe_data` walks the `probe_counts` map (chunk index → number of
probes that chunk owns); for every entry with `chunk_index > 0` it receives,
`probe_count` times, a probe key followed by that probe's sample vector from
that chunk (point-to-point on tag 3, hence in the chunk's send order), and
stores the pair with `probe_data[probe_key] = data`.  The incoming traffic is
modelled as one ordered stream of `(key, data)` pairs per chunk, and the
result map as a function `key_type → Option ProbeData` updated in place. -/

/-- The payload of one received probe: the `vector<Matrix*>` of samples,
entries opaque. -/
abbrev ProbeData := List (List Int)

/-- One map update `probe_data[probe_key] = data`. -/
def insertProbe (m : key_type → Option ProbeData) (kd : key_type × ProbeData) :
    key_type → Option ProbeData :=
  fun k => if k = kd.1 then some kd.2 else m k

/-- Embedding of `MpiInterface::gather_probe_data`: fold over the
`probe_counts` entries in map order; entries with `chunk_index > 0` consume
the first `probe_count` messages of that chunk's stream and store each under
its probe key; the entry with chunk index 0 is skipped. -/
def MpiInterface.gather_probe_data (probe_counts : List (Nat × Nat))
    (streams : Nat → List (key_type × ProbeData))
    (probe_data : key_type → Option ProbeData) : key_type → Option ProbeData :=
  match probe_counts with
  | [] => probe_data
  | c :: rest =>
      MpiInterface.gather_probe_data rest streams
        (if c.1 > 0 then ((streams c.1).take c.2).foldl insertProbe probe_data
         else probe_data)

/-- The flat list of `(key, data)` pairs the coordinator receives, in receive
order: the per-chunk stream prefixes of the chunks with positive index,
concatenated in `probe_counts` order. -/
def receivedMsgs (probe_counts : List (Nat × Nat))
    (streams : Nat → List (key_type × ProbeData)) :
    List (key_type × ProbeData) :=
  probe_counts.flatMap (fun c => if c.1 > 0 then (streams c.1).take c.2 else [])

/-- The empty result map passed to `gather_probe_data` at the start of a
gather. -/
def emptyProbeData : key_type → Option ProbeData := fun _ => none

/-! ## run_n_steps (mpi_simulator.cpp lines 100-111)

`MpiInterface::run_n_steps(int steps)` is the straight-line sequence
`broadcast(comm, steps, 0); master_chunk->run_n_steps(steps); comm.barrier();`.
The worker side (the `mpi_sim_worker` loop) and `MpiSimulatorChunk::run_n_steps`
are not under src/, so their effect is modelled from the spec: a worker that
receives the broadcast executes that many steps and then enters the barrier,
which releases only when every participant has arrived.  The system state
tracks completed step counts for the master chunk and for each worker chunk
(ranks 1..numWorkers), plus the broadcast step counts each worker has yet to
execute before it can reach the barrier. -/

/-- The observable events of one `run_n_steps` call, in order. -/
inductive RunEvent where
  | broadcastSteps (n : Nat)
  | masterRun (n : Nat)
  | barrier
deriving DecidableEq, Repr

/-- Joint state of the coordinator and the worker chunks during the run
phase. -/
structure SystemState where
  numWorkers : Nat
  masterSteps : Nat
  workerSteps : Nat → Nat
  pending : Nat → Nat
deriving Inhabited

/-- Modelled from the spec: the step-count broadcast. Every worker rank
`1..numWorkers` is handed `n` further steps to execute. -/
def broadcastSteps (s : SystemState) (n : Nat) : SystemState :=
  { s with
    pending := fun i =>
      if 1 ≤ i ∧ i ≤ s.numWorkers then s.pending i + n else s.pending i }

/-- The master chunk executes `n` local steps (`master_chunk->run_n_steps`). -/
def masterRunSteps (s : SystemState) (n : Nat) : SystemState :=
  { s with masterSteps := s.masterSteps + n }

/-- Modelled from the spec: before the group barrier releases, every worker
has executed all step counts broadcast to it, so its completed count absorbs
its pending count. -/
def workersExecute (s : SystemState) : SystemState :=
  { s with
    workerSteps := fun i => s.workerSteps i + s.pending i,
    pending := fun _ => 0 }

/-- Embedding of `MpiInterface::run_n_steps(int steps)`: broadcast the step
count, run the master chunk, then the barrier (which forces the workers'
pending steps to completion before it releases).  The returned trace records
the order of the three phases. -/
def MpiInterface.run_n_steps (s : SystemState) (n : Nat) :
    SystemState × List RunEvent :=
  (workersExecute (masterRunSteps (broadcastSteps s n) n),
   [RunEvent.broadcastSteps n, RunEvent.masterRun n, RunEvent.barrier])

/-! ## The chunk step loop, modelled from the spec

`MpiSimulatorChunk::run_n_steps` is not under src/.  Modelled from the spec:
the chunk executes steps `t = 0, 1, ..., n-1` (the run starts at step 0), and
on each step, after the operator pass, every probe's `gather(t)` runs, so a
sample is taken whenever `t mod period == 0`. -/

/-- Modelled from the spec: run a probe through steps `0..n-1`, calling
`Probe.gather` with each step index in order; `none` propagates the
division-by-zero error branch of `gather`. -/
def runProbe {T : Type} (h : Heap T) (p : Probe T) : Nat → Option (Probe T × Heap T)
  | 0 => some (p, h)
  | n + 1 =>
      match runProbe h p n with
      | none => none
      | some q => q.1.gather q.2 n

/-- Number of sampling steps among `0..n-1` for a given period: the count of
step indices `t < n` with `t % period = 0`. -/
def countSamples (period n : Nat) : Nat :=
  (List.range n).countP (fun t => t % period == 0)

/-! ## Persistence (simulator.cpp lines 20-45)

`MpiSimulator::write_to_file` / `read_from_file` serialize the whole
simulator through a boost text archive; the archive layer and the chunk
serialization live outside src/.  Modelled from the spec: persistence is an
opaque save/load of the full, unpartitioned simulation description — a list
of chunk descriptions, each holding its signals (key, label, data), operator
strings and probes (probe key, signal key, period), per spec §3/§6.  The
serialized form is a token list; `write_to_file` length-prefixes every list
so that `read_from_file` can reconstruct the description. -/

/-- One signal of a chunk description: key, label and matrix data. -/
structure SignalDesc where
  key : key_type
  label : String
  data : List Int
deriving DecidableEq, Repr

/-- One probe of a chunk description: probe key, target signal key, period. -/
structure ProbeDesc where
  probe_key : key_type
  signal_key : key_type
  period : Int
deriving DecidableEq, Repr

/-- One chunk of the simulation description. -/
structure ChunkDesc where
  signals : List SignalDesc
  ops : List String
  probes : List ProbeDesc
deriving DecidableEq, Repr

/-- The full unpartitioned simulation description held by `MpiSimulator`
(its `list<MpiSimulatorChunk*> chunks`). -/
structure MpiSimulator where
  chunks : List ChunkDesc
deriving DecidableEq, Repr

/-- One token of the serialized form. -/
inductive Tok where
  | nat (n : Nat)
  | int (i : Int)
  | str (s : String)
deriving DecidableEq, Repr

/-- Serialize a list by emitting its length and then each element. -/
def encList {α : Type} (f : α → List Tok) (l : List α) : List Tok :=
  Tok.nat l.length :: l.flatMap f

/-- Serialize one signal description. -/
def encSignal (s : SignalDesc) : List Tok :=
  Tok.nat s.key :: Tok.str s.label :: encList (fun i => [Tok.int i]) s.data

/-- Serialize one probe description. -/
def encProbe (p : ProbeDesc) : List Tok :=
  [Tok.nat p.probe_key, Tok.nat p.signal_key, Tok.int p.period]

/-- Serialize one chunk description. -/
def encChunk (c : ChunkDesc) : List Tok :=
  encList encSignal c.signals ++ encList (fun s => [Tok.str s]) c.ops ++
    encList encProbe c.probes

/-- Modelled from the spec: `MpiSimulator::write_to_file` saves the full
simulation description (`oa << *this` through the text archive) as the token
list serializing the chunk list. -/
def MpiSimulator.write_to_file (s : MpiSimulator) : List Tok :=
  encList encChunk s.chunks

/-- Read one `Nat` token. -/
def decNat : List Tok → Option (Nat × List Tok)
  | Tok.nat n :: rest => some (n, rest)
  | _ => none

/-- Read one `Int` token. -/
def decInt : List Tok → Option (Int × List Tok)
  | Tok.int i :: rest => some (i, rest)
  | _ => none

/-- Read one `String` token. -/
def decStr : List Tok → Option (String × List Tok)
  | Tok.str s :: rest => some (s, rest)
  | _ => none

/-- Read `n` consecutive elements with the element reader `f`. -/
def decListAux {α : Type} (f : List Tok → Option (α × List Tok)) :
    Nat → List Tok → Option (List α × List Tok)
  | 0, ts => some ([], ts)
  | n + 1, ts =>
      match f ts with
      | none => none
      | some (a, ts1) =>
          match decListAux f n ts1 with
          | none => none
          | some (l, ts2) => some (a :: l, ts2)

/-- Read a length-prefixed list. -/
def decList {α : Type} (f : List Tok → Option (α × List Tok))
    (ts : List Tok) : Option (List α × List Tok) :=
  match decNat ts with
  | none => none
  | some (n, ts1) => decListAux f n ts1

/-- Read one signal description. -/
def decSignal (ts : List Tok) : Option (SignalDesc × List Tok) :=
  match decNat ts with
  | none => none
  | some (k, ts1) =>
      match decStr ts1 with
      | none => none
      | some (lab, ts2) =>
          match decList decInt ts2 with
          | none => none
          | some (d, ts3) => some (⟨k, lab, d⟩, ts3)

/-- Read one probe description. -/
def decProbe (ts : List Tok) : Option (ProbeDesc × List Tok) :=
  match decNat ts with
  | none => none
  | some (pk, ts1) =>
      match decNat ts1 with
      | none => none
      | some (sk, ts2) =>
          match decInt ts2 with
          | none => none
          | some (per, ts3) => some (⟨pk, sk, per⟩, ts3)

/-- Read one chunk description. -/
def decChunk (ts : List Tok) : Option (ChunkDesc × List Tok) :=
  match decList decSignal ts with
  | none => none
  | some (sigs, ts1) =>
      match decList decStr ts1 with
      | none => none
      | some (ops, ts2) =>
          match decList decProbe ts2 with
          | none => none
          | some (prbs, ts3) => some (⟨sigs, ops, prbs⟩, ts3)

/-- Modelled from the spec: `MpiSimulator::read_from_file` loads a full
simulation description (`ia >> *this`) back from the serialized form. -/
def MpiSimulator.read_from_file (ts : List Tok) : Option MpiSimulator :=
  match decList decChunk ts with
  | some (l, []) => some ⟨l⟩
  | _ => none

/-- Embedding of `MpiSimulator::to_string` (simulator.cpp lines 34-45): emits
`"<MpiSimulator"`, a newline, then each chunk's rendering followed by a
newline; the chunk rendering (`operator<<` on `MpiSimulatorChunk`, not under
src/) is an arbitrary renderer parameter. -/
def MpiSimulator.to_string (render : ChunkDesc → String) (s : MpiSimulator) :
    String :=
  "<MpiSimulator" ++ "\n" ++ String.join (s.chunks.map (fun c => render c ++ "\n"))

/-! ## Concrete states and helpers used by the theorems below -/

/-- Last-match lookup in an association list: the value of the last pair
whose key is `k` (later entries take precedence, the effect of repeated
`probe_data[key] = data` assignments). -/
def lookupLast (l : List (key_type × ProbeData)) (k : key_type) :
    Option ProbeData :=
  match l with
  | [] => none
  | kd :: rest =>
      match lookupLast rest k with
      | some d => some d
      | none => if k = kd.1 then some kd.2 else none

/-- A quiescent two-worker system at step 0. -/
def initSystem : SystemState :=
  ⟨2, 0, fun _ => 0, fun _ => 0⟩

/-- Streams for the key-collision scenario: chunks 1 and 2 each own one probe
and both use probe key 7, with different sample data. -/
def collisionStreams : Nat → List (key_type × ProbeData) :=
  fun i => if i = 1 then [(7, [[1]])] else if i = 2 then [(7, [[2]])] else []

/-- A probe with period 2 on signal cell 0 and no samples yet. -/
def probeTwo : Probe Int :=
  ⟨[], 0, 2⟩

/-- A one-cell heap whose every cell reads 5. -/
def heapOne : Heap Int :=
  ⟨1, fun _ => 5⟩

/-! ## Theorems -/

/-- Claim C4: on a step `t` with `t mod period = 0`, `Probe::gather` appends
exactly one sample cell holding the target signal's value at that moment, and
a later in-place write to the signal leaves the recorded cell unchanged; on a
step with `t mod period ≠ 0` the probe and heap are unchanged. -/
theorem gather_records_deep_copy {T : Type} (p : Probe T) (h : Heap T) (t : Nat)
    (hper : 1 ≤ p.period) (hsig : p.signal < h.next) :
    (t % p.period = 0 →
      ∃ p2 : Probe T, ∃ h2 : Heap T, p.gather h t = some (p2, h2) ∧
        p2.data = p.data ++ [h.next] ∧
        p2.signal = p.signal ∧ p2.period = p.period ∧
        h2.mem h.next = h.mem p.signal ∧
        ∀ v : T, (h2.write p.signal v).mem h.next = h.mem p.signal) ∧
    (t % p.period ≠ 0 → p.gather h t = some (p, h)) := by
  have hp0 : p.period ≠ 0 := by omega
  constructor
  · intro hmod
    refine ⟨{ p with data := p.data ++ [h.next] }, (h.alloc (h.mem p.signal)).1,
      ?_, rfl, rfl, rfl, ?_, ?_⟩
    · simp [Probe.gather, hp0, hmod, Heap.alloc]
    · simp [Heap.alloc]
    · intro v
      have hne : h.next ≠ p.signal := by omega
      simp [Heap.alloc, Heap.write, hne]
  · intro hmod
    simp [Probe.gather, hp0, hmod]

/-- Witness for C4: a concrete probe with period 2 on a valid cell samples at
step 4. -/
theorem gather_records_deep_copy_witness :
    (probeTwo.gather heapOne 4).isSome = true := by
  obtain ⟨p2, h2, heq, -⟩ :=
    (gather_records_deep_copy probeTwo heapOne 4 (by decide) (by decide)).1
      (by decide)
  rw [heq]
  rfl

/-- Claim C9: `Probe::gather` is well defined exactly when the period is
nonzero: the guarded modulo's error branch (`none`) is reached precisely when
`period = 0`, and for `period ≥ 1` the call always produces a result. -/
theorem gather_total_iff_period_ne_zero {T : Type} (p : Probe T) (h : Heap T)
    (t : Nat) :
    (p.gather h t).isSome = true ↔ p.period ≠ 0 := by
  by_cases hp : p.period = 0
  · simp [Probe.gather, hp]
  · constructor
    · intro _
      exact hp
    · intro _
      by_cases hmod : t % p.period = 0
      · simp [Probe.gather, hp, hmod]
      · simp [Probe.gather, hp, hmod]

/-- Witness for C9: at period 2 the call at step 3 is well defined, and the
claim theorem applied to a period-0 probe shows the error branch is reached
there. -/
theorem gather_total_iff_period_ne_zero_witness :
    (probeTwo.gather heapOne 3).isSome = true ∧
    ((⟨[], 0, 0⟩ : Probe Int).gather heapOne 3).isSome = false := by
  constructor
  · exact (gather_total_iff_period_ne_zero probeTwo heapOne 3).2 (by decide)
  · have h := gather_total_iff_period_ne_zero (⟨[], 0, 0⟩ : Probe Int) heapOne 3
    by_cases hs : ((⟨[], 0, 0⟩ : Probe Int).gather heapOne 3).isSome = true
    · exact absurd (h.1 hs) (by decide)
    · simpa using hs

/-- Claim C6: `Probe::get_data` returns the full accumulated sample sequence
and leaves the probe unchanged — the data list, the bound signal reference
and the period are identical before and after, so two consecutive drains
return equal sequences. -/
theorem get_data_frame {T : Type} (p : Probe T) :
    p.get_data.1 = p.data ∧
    p.get_data.2 = p ∧
    p.get_data.2.data = p.data ∧
    p.get_data.2.signal = p.signal ∧
    p.get_data.2.period = p.period ∧
    p.get_data.2.get_data.1 = p.get_data.1 :=
  ⟨rfl, rfl, rfl, rfl, rfl, rfl⟩

/-- Claim C7: each configuration routine streams its messages to the
addressed worker on the single control channel (tag 1), the type flag first,
then the payload fields in order — (key, label, data) for a signal, the
operator string for an operator, (probe key, signal key, period) for a
probe. -/
theorem configure_message_traces (c : Nat) (k pk sk : key_type)
    (lab op : String) (d : List Int) (per : Int) :
    ((MpiInterface.add_signal c k lab d).map (fun m => m.dest) = [c, c, c, c] ∧
     (MpiInterface.add_signal c k lab d).map (fun m => m.tag) = [1, 1, 1, 1] ∧
     (MpiInterface.add_signal c k lab d).map (fun m => m.val) =
       [CtrlVal.flag CtrlFlag.addSignal, CtrlVal.key k, CtrlVal.str lab,
        CtrlVal.mat d]) ∧
    ((MpiInterface.add_op c op).map (fun m => m.dest) = [c, c] ∧
     (MpiInterface.add_op c op).map (fun m => m.tag) = [1, 1] ∧
     (MpiInterface.add_op c op).map (fun m => m.val) =
       [CtrlVal.flag CtrlFlag.addOp, CtrlVal.str op]) ∧
    ((MpiInterface.add_probe c pk sk per).map (fun m => m.dest) = [c, c, c, c] ∧
     (MpiInterface.add_probe c pk sk per).map (fun m => m.tag) = [1, 1, 1, 1] ∧
     (MpiInterface.add_probe c pk sk per).map (fun m => m.val) =
       [CtrlVal.flag CtrlFlag.addProbe, CtrlVal.key pk, CtrlVal.key sk,
        CtrlVal.fnum per]) :=
  ⟨⟨rfl, rfl, rfl⟩, ⟨rfl, rfl, rfl⟩, ⟨rfl, rfl, rfl⟩⟩

/-- Claim C2: `run_n_steps(n)` on a quiescent system broadcasts `n`, then
runs `n` local steps on the coordinator's own chunk, then ends at the group
barrier, in that order; when it returns, the master chunk and every worker
chunk have completed exactly `n` further steps and no steps remain pending. -/
theorem run_n_steps_spec (s : SystemState) (n : Nat)
    (hq : ∀ i, s.pending i = 0) :
    (MpiInterface.run_n_steps s n).2 =
      [RunEvent.broadcastSteps n, RunEvent.masterRun n, RunEvent.barrier] ∧
    (MpiInterface.run_n_steps s n).1.masterSteps = s.masterSteps + n ∧
    (∀ i, 1 ≤ i → i ≤ s.numWorkers →
      (MpiInterface.run_n_steps s n).1.workerSteps i = s.workerSteps i + n) ∧
    (∀ i, ¬(1 ≤ i ∧ i ≤ s.numWorkers) →
      (MpiInterface.run_n_steps s n).1.workerSteps i = s.workerSteps i) ∧
    (∀ i, (MpiInterface.run_n_steps s n).1.pending i = 0) := by
  refine ⟨rfl, rfl, ?_, ?_, fun i => rfl⟩
  · intro i h1 h2
    simp only [MpiInterface.run_n_steps, workersExecute, masterRunSteps,
      broadcastSteps]
    rw [if_pos (And.intro h1 h2), hq i]
    omega
  · intro i hnot
    simp only [MpiInterface.run_n_steps, workersExecute, masterRunSteps,
      broadcastSteps]
    rw [if_neg hnot, hq i]
    omega

/-- Witness for C2: on a fresh two-worker system, three steps leave the
master chunk and both workers at step count 3. -/
theorem run_n_steps_spec_witness :
    (MpiInterface.run_n_steps initSystem 3).1.masterSteps = 3 ∧
    (MpiInterface.run_n_steps initSystem 3).1.workerSteps 1 = 3 ∧
    (MpiInterface.run_n_steps initSystem 3).1.workerSteps 2 = 3 := by
  obtain ⟨-, h2, h3, -, -⟩ := run_n_steps_spec initSystem 3 (fun i => rfl)
  exact ⟨h2, h3 1 (by decide) (by decide), h3 2 (by decide) (by decide)⟩

/-- Counterexample for C3: on a live two-worker session, `finalize` alone
leaves the communication group in existence — the teardown is not part of
`finalize`. -/
theorem finalize_leaves_group_cex :
    (MpiInterface.finalize ⟨2, true⟩).1.group_exists = true ∧
    (MpiInterface.finalize ⟨2, true⟩).2 =
      [⟨1, 1, CtrlVal.flag CtrlFlag.stop⟩, ⟨2, 1, CtrlVal.flag CtrlFlag.stop⟩] := by
  constructor
  · rfl
  · rfl

/-- Claim C3 (amended): `finalize` sends exactly one stop message to each of
the `num_chunks` workers (ranks 1..num_chunks, on the control channel tag 1)
and leaves the session state — in particular the communication group —
unchanged; the group is torn down by the separate `finish_simulation` call,
after which it no longer exists. -/
theorem finalize_stop_protocol (s : MpiInterfaceState) :
    (MpiInterface.finalize s).2.map (fun m => m.dest) =
      (List.range s.num_remote_chunks).map (fun i => i + 1) ∧
    (MpiInterface.finalize s).2.map (fun m => m.val) =
      List.replicate s.num_remote_chunks (CtrlVal.flag CtrlFlag.stop) ∧
    (MpiInterface.finalize s).2.map (fun m => m.tag) =
      List.replicate s.num_remote_chunks 1 ∧
    (MpiInterface.finalize s).2.length = s.num_remote_chunks ∧
    (MpiInterface.finalize s).1 = s ∧
    (MpiInterface.finish_simulation (MpiInterface.finalize s).1).group_exists
      = false := by
  refine ⟨?_, ?_, ?_, ?_, rfl, rfl⟩
  · simp [MpiInterface.finalize, List.map_map, Function.comp_def]
  · simp [MpiInterface.finalize, List.map_map, Function.comp_def,
      List.map_const', List.length_range]
  · simp [MpiInterface.finalize, List.map_map, Function.comp_def,
      List.map_const', List.length_range]
  · simp [MpiInterface.finalize]

/-- The gather loop is the left fold of the map updates over the received
message list. -/
theorem gather_probe_data_eq_foldl (counts : List (Nat × Nat))
    (streams : Nat → List (key_type × ProbeData))
    (pd : key_type → Option ProbeData) :
    MpiInterface.gather_probe_data counts streams pd =
      (receivedMsgs counts streams).foldl insertProbe pd := by
  induction counts generalizing pd with
  | nil => rfl
  | cons c rest ih =>
      by_cases hc : c.1 > 0
      · simp [MpiInterface.gather_probe_data, receivedMsgs, hc,
          List.foldl_append, ih]
      · simp [MpiInterface.gather_probe_data, receivedMsgs, hc, ih]

/-- A left fold of map updates looks up the last matching key. -/
theorem foldl_insertProbe_apply (l : List (key_type × ProbeData))
    (pd : key_type → Option ProbeData) (k : key_type) :
    l.foldl insertProbe pd k =
      match lookupLast l k with
      | some d => some d
      | none => pd k := by
  induction l generalizing pd with
  | nil => rfl
  | cons kd rest ih =>
      rw [List.foldl_cons, ih]
      show (match lookupLast rest k with
            | some d => some d
            | none => insertProbe pd kd k) =
           (match (match lookupLast rest k with
                   | some d => some d
                   | none => if k = kd.1 then some kd.2 else none) with
            | some d => some d
            | none => pd k)
      rcases hrec : lookupLast rest k with - | d
      · by_cases hk : k = kd.1
        · simp [insertProbe, hk]
        · simp [insertProbe, hk]
      · rfl

/-- Counterexample for C1: chunks 1 and 2 each own one probe, both with probe
key 7 but different sample data; the gathered result is the single-entry map
sending 7 to chunk 2's data, so the two probes are not stored under distinct
keys and chunk 1's samples are lost. -/
theorem gather_probe_data_key_collision_cex :
    MpiInterface.gather_probe_data [(1, 1), (2, 1)] collisionStreams
        emptyProbeData =
      insertProbe emptyProbeData (7, [[2]]) ∧
    ([[1]] : ProbeData) ≠ [[2]] := by
  constructor
  · funext k
    by_cases hk : k = 7
    · simp [MpiInterface.gather_probe_data, collisionStreams, emptyProbeData,
        insertProbe, hk]
    · simp [MpiInterface.gather_probe_data, collisionStreams, emptyProbeData,
        insertProbe, hk]
  · decide

/-- Claim C1 (amended): the gathered result is keyed by probe key alone, not
by the (chunk, probe) pair: the value at key `k` is the sample sequence of
the last received probe whose key is `k` (a later-received probe on the same
key overwrites an earlier one, also across chunks), and the prior map entry
survives only for keys never received.  Per-chunk association is preserved in
the received list itself: a chunk's entries are exactly the first
`probe_count` pairs of that chunk's own stream, so with globally distinct
probe keys every probe's samples sit under its own key. -/
theorem gather_probe_data_keyed_by_probe_key (counts : List (Nat × Nat))
    (streams : Nat → List (key_type × ProbeData))
    (pd : key_type → Option ProbeData) (k : key_type) :
    MpiInterface.gather_probe_data counts streams pd k =
      match lookupLast (receivedMsgs counts streams) k with
      | some d => some d
      | none => pd k := by
  rw [gather_probe_data_eq_foldl]
  exact foldl_insertProbe_apply (receivedMsgs counts streams) pd k

/-- Claim C10: entries of the probe-count map with chunk index 0 are skipped
entirely: the gather result equals the result over the counts with the
chunk-0 entry removed, whatever that entry's probe count, so probes owned by
the coordinator's own chunk never enter the gathered mapping through the
gather channel. -/
theorem gather_probe_data_skips_chunk_zero (counts : List (Nat × Nat))
    (streams : Nat → List (key_type × ProbeData))
    (pd : key_type → Option ProbeData) (c : Nat) :
    MpiInterface.gather_probe_data counts streams pd =
      MpiInterface.gather_probe_data
        (counts.filter (fun e => decide (0 < e.1))) streams pd ∧
    MpiInterface.gather_probe_data ((0, c) :: counts) streams pd =
      MpiInterface.gather_probe_data counts streams pd := by
  constructor
  · induction counts generalizing pd with
    | nil => rfl
    | cons e rest ih =>
        by_cases he : 0 < e.1
        · simp only [MpiInterface.gather_probe_data, List.filter_cons,
            decide_eq_true he, if_pos he]
          exact ih _
        · simp only [MpiInterface.gather_probe_data, List.filter_cons]
          rw [if_neg he]
          simp only [decide_eq_false he, Bool.false_eq_true, if_false]
          exact ih _
  · simp [MpiInterface.gather_probe_data]

/-- One more step adds a sample exactly when the new step index is a sampling
step. -/
theorem countSamples_succ (per n : Nat) :
    countSamples per (n + 1) =
      countSamples per n + (if n % per = 0 then 1 else 0) := by
  unfold countSamples
  rw [List.range_succ, List.countP_append]
  simp [List.countP_cons]

/-- Closed form of the sample count for a positive period: the number of
multiples of `per` below `n` is `(n + per - 1) / per`, the ceiling of
`n / per`. -/
theorem countSamples_eq_ceil (per n : Nat) (hper : 1 ≤ per) :
    countSamples per n = (n + per - 1) / per := by
  induction n with
  | zero =>
      simp [countSamples]
      exact (Nat.div_eq_of_lt (by omega)).symm
  | succ n ih =>
      rw [countSamples_succ, ih]
      have hd := Nat.div_add_mod n per
      by_cases hmod : n % per = 0
      · rw [if_pos hmod]
        have h1 : n + 1 + per - 1 = per * (n / per) + per := by omega
        have h2 : n + per - 1 = per * (n / per) + (per - 1) := by omega
        have e1 : (per - 1) / per = 0 := Nat.div_eq_of_lt (by omega)
        have e2 : per / per = 1 := Nat.div_self (by omega)
        rw [h1, h2, Nat.mul_add_div (by omega), Nat.mul_add_div (by omega),
          e1, e2]
      · rw [if_neg hmod]
        have hlt : n % per < per := Nat.mod_lt n (by omega)
        have hmul : per * (n / per + 1) = per * (n / per) + per := by ring
        have h1 : n + 1 + per - 1 = per * (n / per + 1) + (n % per) := by
          rw [hmul]
          omega
        have h2 : n + per - 1 = per * (n / per + 1) + (n % per - 1) := by
          rw [hmul]
          omega
        have e1 : (n % per - 1) / per = 0 := Nat.div_eq_of_lt (by omega)
        have e2 : n % per / per = 0 := Nat.div_eq_of_lt hlt
        rw [h1, h2, Nat.mul_add_div (by omega), Nat.mul_add_div (by omega),
          e1, e2]

/-- Running the step loop with a positive period never hits the error branch,
preserves the probe's signal and period, and grows the sample list by one
cell per sampling step. -/
theorem runProbe_length {T : Type} (h : Heap T) (p : Probe T) (n : Nat)
    (hper : 1 ≤ p.period) :
    ∃ q : Probe T × Heap T, runProbe h p n = some q ∧
      q.1.period = p.period ∧ q.1.signal = p.signal ∧
      q.1.data.length = p.data.length + countSamples p.period n := by
  induction n with
  | zero =>
      exact ⟨(p, h), rfl, rfl, rfl, by simp [countSamples]⟩
  | succ n ih =>
      obtain ⟨q, hq, hper2, hsig2, hlen⟩ := ih
      have hp0 : q.1.period ≠ 0 := by omega
      have hpp : p.period ≠ 0 := by omega
      by_cases hmod : n % p.period = 0
      · refine ⟨({ q.1 with data := q.1.data ++ [q.2.next] },
          (q.2.alloc (q.2.mem q.1.signal)).1), ?_, hper2, hsig2, ?_⟩
        · show (match runProbe h p n with
                | none => none
                | some q => q.1.gather q.2 n) = _
          rw [hq]
          simp [Probe.gather, hp0, hpp, hper2, hmod, Heap.alloc]
        · rw [countSamples_succ, if_pos hmod]
          simp [hlen]
          omega
      · refine ⟨q, ?_, hper2, hsig2, ?_⟩
        · show (match runProbe h p n with
                | none => none
                | some q => q.1.gather q.2 n) = _
          rw [hq]
          simp [Probe.gather, hp0, hpp, hper2, hmod]
        · rw [countSamples_succ, if_neg hmod]
          omega

/-- Claim C5 (amended): a run of `n` steps starting at step 0 (sampling from
the first step, step index 0) followed by the gather yields, for a probe of
period `per ≥ 1` that starts empty, a sample sequence of length
`ceil(n / per) = (n + per - 1) / per`; this equals `floor(n / per)` exactly
when `per` divides `n`.  The gather conjunct shows the sequence arriving
unchanged in the coordinator's result map under the probe's key. -/
theorem run_then_gather_sample_count {T : Type} (h : Heap T)
    (sig per n k : Nat) (f : Nat → List Int) (hper : 1 ≤ per) :
    ∃ q : Probe T × Heap T,
      runProbe h ⟨[], sig, per⟩ n = some q ∧
      MpiInterface.gather_probe_data [(1, 1)]
          (fun i => if i = 1 then [(k, q.1.get_data.1.map f)] else [])
          emptyProbeData k = some (q.1.get_data.1.map f) ∧
      (q.1.get_data.1.map f).length = (n + per - 1) / per := by
  obtain ⟨q, hq, -, -, hlen⟩ := runProbe_length h ⟨[], sig, per⟩ n hper
  refine ⟨q, hq, ?_, ?_⟩
  · simp [MpiInterface.gather_probe_data, insertProbe]
  · simp only [Probe.get_data, List.length_map]
    rw [hlen]
    simp [countSamples_eq_ceil per n hper]

/-- Witness for C5 (amended): with period 2, three steps record two samples
(steps 0 and 2), and `(3 + 2 - 1) / 2 = 2`. -/
theorem run_then_gather_sample_count_witness :
    ((runProbe heapOne probeTwo 3).map (fun q => q.1.data.length) = some 2) ∧
    (3 + 2 - 1) / 2 = 2 := by
  obtain ⟨q, hq, -, hlen⟩ :=
    run_then_gather_sample_count heapOne 0 2 3 7 (fun _ => ([] : List Int))
      (by decide)
  constructor
  · rw [show probeTwo = (⟨[], 0, 2⟩ : Probe Int) from rfl, hq]
    have h2 : q.1.data.length = 2 := by simpa [Probe.get_data] using hlen
    simp [h2]
  · rfl

/-- Counterexample for C5: with period 2 and a 3-step run starting at step 0,
the probe records two samples (at steps 0 and 2), not `floor(3 / 2) = 1`. -/
theorem run_floor_sample_count_cex :
    ((runProbe heapOne probeTwo 3).map (fun q => q.1.get_data.1.length) =
      some 2) ∧
    (3 : Nat) / 2 = 1 ∧ (2 : Nat) ≠ 3 / 2 := by
  refine ⟨rfl, rfl, by decide⟩

/-- Reading back `n` encoded elements recovers them, given that the element
reader inverts the element encoder. -/
theorem decListAux_enc {α : Type} (f : List Tok → Option (α × List Tok))
    (enc : α → List Tok)
    (hf : ∀ a rest, f (enc a ++ rest) = some (a, rest))
    (l : List α) (rest : List Tok) :
    decListAux f l.length (l.flatMap enc ++ rest) = some (l, rest) := by
  induction l with
  | nil => simp [decListAux]
  | cons a l ih =>
      have hsplit : (a :: l).flatMap enc ++ rest =
          enc a ++ (l.flatMap enc ++ rest) := by
        simp [List.flatMap_cons, List.append_assoc]
      rw [List.length_cons, hsplit]
      simp only [decListAux]
      simp [hf a (l.flatMap enc ++ rest), ih]

/-- Reading back a length-prefixed encoded list recovers it. -/
theorem decList_enc {α : Type} (f : List Tok → Option (α × List Tok))
    (enc : α → List Tok)
    (hf : ∀ a rest, f (enc a ++ rest) = some (a, rest))
    (l : List α) (rest : List Tok) :
    decList f (encList enc l ++ rest) = some (l, rest) := by
  show decList f (Tok.nat l.length :: (l.flatMap enc ++ rest)) = some (l, rest)
  simp only [decList, decNat]
  exact decListAux_enc f enc hf l rest

/-- The signal reader inverts the signal encoder. -/
theorem decSignal_enc (s : SignalDesc) (rest : List Tok) :
    decSignal (encSignal s ++ rest) = some (s, rest) := by
  show decSignal (Tok.nat s.key :: Tok.str s.label ::
    (encList (fun i => [Tok.int i]) s.data ++ rest)) = some (s, rest)
  simp only [decSignal, decNat, decStr]
  rw [decList_enc decInt (fun i => [Tok.int i]) (fun a r => rfl) s.data rest]

/-- The probe reader inverts the probe encoder. -/
theorem decProbe_enc (p : ProbeDesc) (rest : List Tok) :
    decProbe (encProbe p ++ rest) = some (p, rest) := rfl

/-- The chunk reader inverts the chunk encoder. -/
theorem decChunk_enc (c : ChunkDesc) (rest : List Tok) :
    decChunk (encChunk c ++ rest) = some (c, rest) := by
  have hsplit : encChunk c ++ rest =
      encList encSignal c.signals ++
        (encList (fun s => [Tok.str s]) c.ops ++
          (encList encProbe c.probes ++ rest)) := by
    simp [encChunk, List.append_assoc]
  rw [hsplit]
  simp only [decChunk, decList_enc decSignal encSignal decSignal_enc,
    decList_enc decStr (fun s => [Tok.str s]) (fun a r => rfl),
    decList_enc decProbe encProbe decProbe_enc]

/-- Claim C8: writing a simulation description to the serialized form and
reading it back reconstructs a description structurally equal to the
original; in particular its textual rendering via `to_string` (for any chunk
renderer) is equal. -/
theorem write_read_round_trip (s : MpiSimulator) (render : ChunkDesc → String) :
    MpiSimulator.read_from_file (s.write_to_file) = some s ∧
    (MpiSimulator.read_from_file (s.write_to_file)).map
        (MpiSimulator.to_string render) = some (s.to_string render) := by
  have h : decList decChunk (encList encChunk s.chunks ++ []) =
      some (s.chunks, []) :=
    decList_enc decChunk encChunk decChunk_enc s.chunks []
  rw [List.append_nil] at h
  have h1 : MpiSimulator.read_from_file (s.write_to_file) = some s := by
    simp only [MpiSimulator.read_from_file, MpiSimulator.write_to_file]
    rw [h]
  exact ⟨h1, by rw [h1]; rfl⟩
